import Mathlib

/-!
Verification development for the Church Orientation Explorer repository.

The repository computes, for each church building footprint polygon, the
compass orientation of its long axis (via a minimum-area oriented bounding
rectangle) and the deviation of that axis from east-west, then renders and
exports the results.  The orientation pipeline itself (Python backend) is
not among the repository files available here, so it is modelled from the
specification; the browser client `app/static/js/main.js` is embedded
directly from its source.

Real-valued transcendental steps of the pipeline (the `cos`-scaled
equirectangular projection factor and the `atan2`-based conversion of a
direction vector to an angle in degrees) are modelled as explicit function
parameters (`cosR`, `angleOf`) over `ℚ`; every theorem quantifies over
them, so the proved properties hold for any values those steps return.
-/

set_option maxRecDepth 8000

namespace ChurchOrient

/-- A planar point (x, y) with exact rational coordinates. -/
abbrev Pt := ℚ × ℚ

/-- A geographic point (latitude, longitude) in degrees. -/
abbrev GeoPt := ℚ × ℚ

/-- Modelled from the spec (§4.3 step 1): lexicographic order used to sort
the distinct vertices before the monotone-chain convex hull scan. -/
def ptLe (p q : Pt) : Prop := p.1 < q.1 ∨ (p.1 = q.1 ∧ p.2 ≤ q.2)

instance : DecidableRel ptLe := fun p q => by
  unfold ptLe
  exact inferInstance

instance : IsTrans Pt ptLe := by
  constructor
  intro a b c hab hbc
  rcases hab with h1 | ⟨h1, h1'⟩ <;> rcases hbc with h2 | ⟨h2, h2'⟩
  · exact Or.inl (lt_trans h1 h2)
  · exact Or.inl (h2 ▸ h1)
  · exact Or.inl (h1 ▸ h2)
  · exact Or.inr ⟨h1.trans h2, le_trans h1' h2'⟩

instance : IsAntisymm Pt ptLe := by
  constructor
  intro a b hab hba
  rcases hab with h1 | ⟨h1, h1'⟩ <;> rcases hba with h2 | ⟨h2, h2'⟩
  · exact absurd (lt_trans h1 h2) (lt_irrefl _)
  · exact absurd h1 (h2 ▸ lt_irrefl _)
  · exact absurd h2 (h1 ▸ lt_irrefl _)
  · exact Prod.ext h1 (le_antisymm h1' h2')

instance : IsTotal Pt ptLe := by
  constructor
  intro a b
  rcases lt_trichotomy a.1 b.1 with h | h | h
  · exact Or.inl (Or.inl h)
  · rcases le_total a.2 b.2 with h' | h'
    · exact Or.inl (Or.inr ⟨h, h'⟩)
    · exact Or.inr (Or.inr ⟨h.symm, h'⟩)
  · exact Or.inr (Or.inl h)

/-- The distinct vertices of a planar polygon, sorted lexicographically
(the canonical input of the monotone-chain hull). -/
def sortedVerts (vs : Finset Pt) : List Pt := vs.sort ptLe

/-- Cross product of the vectors o→a and o→b (positive = left turn). -/
def cross (o a b : Pt) : ℚ :=
  (a.1 - o.1) * (b.2 - o.2) - (a.2 - o.2) * (b.1 - o.1)

/-- One step of the monotone-chain scan: pop stack points (most recent
first) that do not make a strict left turn towards `p`, so collinear
points are discarded and only extreme points are kept (spec §4.3 step 1). -/
def chainStep (p : Pt) : List Pt → List Pt
  | a :: b :: rest => if cross b a p ≤ 0 then chainStep p (b :: rest) else a :: b :: rest
  | s => s

/-- Half of the monotone chain: scan the points, keeping the stack of hull
points of one side (most recent first). -/
def halfChain (pts : List Pt) : List Pt :=
  pts.foldl (fun st p => p :: chainStep p st) []

/-- Modelled from the spec (§4.3 step 1): convex hull of the distinct
vertices by Andrew's monotone chain, lower chain then upper chain, each
with its final point dropped to avoid repeating the two extreme points. -/
def convexHull (vs : Finset Pt) : List Pt :=
  let s := sortedVerts vs
  if s.length ≤ 2 then s
  else ((halfChain s).reverse).dropLast ++ ((halfChain s.reverse).reverse).dropLast

/-- The perpendicular of a direction vector (rotation by +90°). -/
def perp (d : Pt) : Pt := (-d.2, d.1)

/-- Dot product. -/
def dot (a b : Pt) : ℚ := a.1 * b.1 + a.2 * b.2

/-- Squared Euclidean norm. -/
def sqNorm (d : Pt) : ℚ := d.1 ^ 2 + d.2 ^ 2

/-- Normalize a direction vector into the upper half plane, so its angle
from the x-axis lies in [0, π) (spec §4.3 step 5's rotation range). -/
def normDir (d : Pt) : Pt :=
  if d.2 < 0 ∨ (d.2 = 0 ∧ d.1 < 0) then (-d.1, -d.2) else d

/-- The (min, max) of `f` over a vertex list ((0, 0) for the empty list). -/
def projRange (f : Pt → ℚ) (l : List Pt) : ℚ × ℚ :=
  match l with
  | [] => (0, 0)
  | p :: rest => rest.foldl (fun mm q => (min mm.1 (f q), max mm.2 (f q))) (f p, f p)

/-- Width of the range of `f` over a vertex list. -/
def extent (f : Pt → ℚ) (l : List Pt) : ℚ :=
  (projRange f l).2 - (projRange f l).1

/-- A candidate rectangle orientation: one hull edge's direction together
with the extents of the hull's projections along it and perpendicular to
it.  The extents carry the factor ‖dir‖, which cancels in the area and
aspect-ratio formulas. -/
structure RectCand where
  dir : Pt
  eAlong : ℚ
  ePerp : ℚ
deriving DecidableEq, Repr

/-- Modelled from the spec (§4.3 step 3): the candidate for one hull edge;
`none` for a zero-length edge. -/
def candOf (hull : List Pt) (e : Pt × Pt) : Option RectCand :=
  if e.1 = e.2 then none
  else
    let d := normDir (e.2 - e.1)
    some ⟨d, extent (fun p => dot p d) hull, extent (fun p => dot p (perp d)) hull⟩

/-- All candidate orientations of a vertex set: one per convex-hull edge. -/
def rectCandidates (vs : Finset Pt) : List RectCand :=
  let h := convexHull vs
  (h.zip (h.rotate 1)).filterMap (candOf h)

/-- Area of the bounding rectangle of a candidate (the two ‖dir‖ factors in
the extents are divided out). -/
def area (c : RectCand) : ℚ := c.eAlong * c.ePerp / sqNorm c.dir

/-- A rational key strictly monotone in the rotation angle of an
upper-half-plane direction: ⊥ for angle 0, otherwise −cot of the angle. -/
def angleKey (d : Pt) : WithBot ℚ :=
  if d.2 = 0 then ⊥ else ((-(d.1 / d.2) : ℚ) : WithBot ℚ)

/-- Modelled from the spec (§4.3 step 4): selection key, area first, then
the rotation angle as the deterministic tie-break. -/
def candKey (c : RectCand) : ℚ ×ₗ WithBot ℚ := toLex (area c, angleKey c.dir)

/-- Keep the better of two candidates (strictly smaller key replaces, so
the first minimal candidate encountered wins deterministically). -/
def pickCand (a b : RectCand) : RectCand := if candKey b < candKey a then b else a

/-- Modelled from the spec (§4.3 step 4): the minimum-area candidate, ties
broken towards the smaller rotation angle. -/
def chooseCand : List RectCand → Option RectCand
  | [] => none
  | c :: cs => some (cs.foldl pickCand c)

/-- The fitted oriented minimum-area bounding rectangle: direction of the
long side (upper half plane), the extents of the long and short sides
(scaled by ‖dir‖), and the center. -/
structure MinRect where
  dir : Pt
  long : ℚ
  short : ℚ
  center : Pt
deriving DecidableEq, Repr

/-- Modelled from the spec (§4.3 step 5): the rectangle of the winning
candidate, axes swapped so that the long side's extent comes first and the
direction is renormalized after a 90° swap. -/
def rectOfCand (hull : List Pt) (c : RectCand) : MinRect :=
  let d := c.dir
  let n2 := sqNorm d
  let ra := projRange (fun p => dot p d) hull
  let rp := projRange (fun p => dot p (perp d)) hull
  let ca := (ra.1 + ra.2) / 2
  let cp := (rp.1 + rp.2) / 2
  let ctr : Pt := ((ca * d.1 + cp * (perp d).1) / n2, (ca * d.2 + cp * (perp d).2) / n2)
  if c.eAlong < c.ePerp then ⟨normDir (perp d), c.ePerp, c.eAlong, ctr⟩
  else ⟨d, c.eAlong, c.ePerp, ctr⟩

/-- Modelled from the spec (§4.3): the OrientedRectangleFitter.  A vertex
set whose hull has no edge (at most one distinct point) gets the trivial
degenerate rectangle; a collinear set gets its line direction with height
0 through the two-point hull (spec §4.3 step 2). -/
def fitRect (vs : Finset Pt) : MinRect :=
  match chooseCand (rectCandidates vs) with
  | some c => rectOfCand (convexHull vs) c
  | none => ⟨(1, 0), 0, 0, (0, 0)⟩

/-- Reduction of a value into [0, 180), the half-turn period of an
undirected line's bearing. -/
def qmod180 (x : ℚ) : ℚ := 180 * Int.fract (x / 180)

/-- Modelled from the spec (§4.4): the single deterministic bearing rule —
the plane rotation angle (degrees, counterclockwise from the x-axis)
converted to a compass bearing (0° = north, clockwise) and reduced to one
representative of the antipodal pair, `(90 − rotation) mod 180`. -/
def bearingDeg (rot : ℚ) : ℚ := qmod180 (90 - rot)

/-- Modelled from the spec (§4.4): angular distance of a bearing from the
nearest east-west bearing (90° or 270°), `min(|o − 90|, |o − 270|)`. -/
def deviationDeg (o : ℚ) : ℚ := min |o - 90| |o - 270|

/-- Modelled from the spec (§4.4): `orientation_deg − 90` normalized into
(−90, 90], preserving the departure's sign. -/
def signedDevDeg (o : ℚ) : ℚ :=
  (o - 90) - 180 * ⌈((o - 90) - 90) / 180⌉

/-- Modelled from the spec (§4.4): the minimum height used by the
aspect-ratio guard (a design parameter; documented choice: 10⁻⁶). -/
def epsHeight : ℚ := 1 / 1000000

/-- Modelled from the spec (§4.4): the large finite sentinel reported as
aspect ratio for a collapsed (near-zero-height) rectangle. -/
def aspectSentinel : ℚ := 1000000

/-- Modelled from the spec (§4.4): `width / height` of the rectangle with
the zero-height guard.  The extents carry the common factor ‖dir‖, so the
guard compares `short²` against `epsHeight² · ‖dir‖²` (that is, the true
height against `epsHeight`), and the ratio itself is scale free. -/
def aspectRatioOf (long short n2 : ℚ) : ℚ :=
  if short ^ 2 < epsHeight ^ 2 * n2 then aspectSentinel else long / short

/-- Modelled from the spec (§4.4): confidence classification, monotone in
the aspect ratio, with the documented thresholds 1.15 and 1.6, and "low"
forced when the hull has fewer than 4 vertices. -/
def confidenceOf (aspect : ℚ) (hullCount : ℕ) : String :=
  if aspect < 115 / 100 ∨ hullCount < 4 then "low"
  else if aspect < 8 / 5 then "medium"
  else "high"

/-- Modelled from the spec (§4.2): the projection origin, the arithmetic
mean of the polygon's distinct vertices (a function of the vertex set, so
it is unchanged by re-listing the ring). -/
def originOf (vs : Finset GeoPt) : GeoPt :=
  ((vs.sum (fun p => p.1)) / vs.card, (vs.sum (fun p => p.2)) / vs.card)

/-- Modelled from the spec (§4.2): locally accurate equirectangular
projection `x = (lon − lon0) · cosR(lat0)`, `y = (lat − lat0) · rScale`.
`cosR` abstracts the transcendental x factor `cos(lat0) · R · π/180` and
`rScale` the constant y factor `R · π/180` (≈ 111195 m per degree); every
theorem below quantifies over both, so it holds at their true values. -/
def project (cosR : ℚ → ℚ) (rScale : ℚ) (o : GeoPt) (p : GeoPt) : Pt :=
  ((p.2 - o.2) * cosR o.1, (p.1 - o.1) * rScale)

/-- The projected distinct vertices of a polygon's vertex set. -/
def projectedVerts (cosR : ℚ → ℚ) (rScale : ℚ) (vs : Finset GeoPt) : Finset Pt :=
  vs.image (project cosR rScale (originOf vs))

/-- The exportable record of one successfully analyzed polygon (spec §3). -/
structure FeatureRecord where
  id : ℕ
  name : Option String
  lat : ℚ
  lon : ℚ
  orientation_deg : ℚ
  deviation_deg : ℚ
  signed_dev_deg : ℚ
  aspect_ratio : ℚ
  confidence : String
  arrow_lat : ℚ
  arrow_lon : ℚ
deriving DecidableEq, Repr

/-- Modelled from the spec (§4.4–§4.5): the OrientationAnalyzer and the
FeatureRecordAssembler over one polygon's distinct vertex set.  `angleOf`
abstracts the transcendental conversion of the rectangle's long-side
direction vector to its plane rotation angle in degrees; the
representative point is modelled by the projection origin (the vertex
mean), and the arrow endpoint displaces it along the rectangle's long-side
direction by the capped visual length of spec §4.4. -/
def buildRecord (cosR : ℚ → ℚ) (rScale : ℚ) (angleOf : Pt → ℚ) (id : ℕ)
    (name : Option String) (vs : Finset GeoPt) : FeatureRecord :=
  let o := originOf vs
  let pv := projectedVerts cosR rScale vs
  let rect := fitRect pv
  let ori := bearingDeg (angleOf rect.dir)
  let asp := aspectRatioOf rect.long rect.short (sqNorm rect.dir)
  let s := min (3 / 10 * rect.long) 50
  { id := id, name := name, lat := o.1, lon := o.2,
    orientation_deg := ori,
    deviation_deg := deviationDeg ori,
    signed_dev_deg := signedDevDeg ori,
    aspect_ratio := asp,
    confidence := confidenceOf asp (convexHull pv).length,
    arrow_lat := o.1 + (if rScale = 0 then 0 else rect.dir.2 * s / rScale),
    arrow_lon := o.2 + (if cosR o.1 = 0 then 0 else rect.dir.1 * s / cosR o.1) }

/-- A raw ingested element: id, optional name tag, and its outer ring
(a closed vertex list in geographic coordinates). -/
structure RawElement where
  id : ℕ
  name : Option String
  ring : List GeoPt
deriving DecidableEq, Repr

/-- Modelled from the spec (§4.1, §7): a polygon is degenerate when fewer
than 3 distinct vertices remain after deduplication. -/
def degenerate (e : RawElement) : Bool := e.ring.toFinset.card < 3

/-- Modelled from the spec (§3, §4.1): one element yields exactly one
record unless degenerate, in which case it is skipped (not an error). -/
def processElement (cosR : ℚ → ℚ) (rScale : ℚ) (angleOf : Pt → ℚ)
    (e : RawElement) : Option FeatureRecord :=
  if degenerate e then none
  else some (buildRecord cosR rScale angleOf e.id e.name e.ring.toFinset)

/-- The batch output: the record sequence in input order plus the count of
discarded degenerate polygons (spec §6). -/
structure PipelineResult where
  records : List FeatureRecord
  discarded_count : ℕ
deriving DecidableEq, Repr

/-- Modelled from the spec (§2, §5): the pure, synchronous orientation
pipeline over an ordered polygon batch. -/
def runPipeline (cosR : ℚ → ℚ) (rScale : ℚ) (angleOf : Pt → ℚ)
    (batch : List RawElement) : PipelineResult :=
  { records := batch.filterMap (processElement cosR rScale angleOf),
    discarded_count := batch.countP (fun e => degenerate e) }

/-- The fitted rectangle of one ring (projection then fitter), the object
of the spec's invariance guarantee (§4.3, §8). -/
def ringRect (cosR : ℚ → ℚ) (rScale : ℚ) (ring : List GeoPt) : MinRect :=
  fitRect (projectedVerts cosR rScale ring.toFinset)

end ChurchOrient

namespace MainJs

/-! Shallow embedding of the browser client `app/static/js/main.js`.
DOM and Leaflet layer mutations become a pure state (`UIState`), and the
outward-visible actions (HTTP requests, alerts, file downloads) become an
effect list; the outcome of an awaited `fetch` is an explicit parameter. -/

/-- JSON values, as the client serializes them with `JSON.stringify`. -/
inductive Json where
  | num (q : ℚ)
  | str (s : String)
  | obj (fields : List (String × Json))

/-- A JavaScript numeric-slot value as `Number.isFinite` classifies it: a
finite number, or anything else (NaN, ±Infinity, null, undefined). -/
inductive JVal where
  | fin (q : ℚ)
  | undef
deriving DecidableEq, Repr

/-- `Number.isFinite` (main.js lines 99-100). -/
def JVal.isFinite : JVal → Bool
  | .fin _ => true
  | .undef => false

/-- One feature record as the client receives it from `/api/orientation`.
The two arrow coordinates are the slots whose finiteness the client
checks before drawing the arrow polyline. -/
structure JFeature where
  name : Option String
  lat : ℚ
  lon : ℚ
  orientation_deg : ℚ
  deviation_deg : ℚ
  signed_dev_deg : ℚ
  aspect_ratio : ℚ
  confidence : String
  arrow_lat : JVal
  arrow_lon : JVal
deriving DecidableEq, Repr

/-- The digit character of `k % 10`. -/
def digitToChar (k : ℕ) : Char := Char.ofNat (48 + k % 10)

/-- The `d` decimal digits of `n` (most significant first), zero padded;
`n` is taken mod 10^d. -/
def natDigitsPadded : ℕ → ℕ → List Char
  | 0, _ => []
  | d + 1, n => digitToChar (n / 10 ^ d) :: natDigitsPadded d (n % 10 ^ d)

/-- `formatNumber` (main.js lines 39-41): `parseFloat(value).toFixed(digits)`
— the value rounded to `digits` decimal places (half away from zero, as
`toFixed` rounds an exactly representable value) and rendered with exactly
`digits` digits after the decimal point. -/
def formatNumber (q : ℚ) (d : ℕ) : String :=
  let m : ℤ := if q < 0 then -⌊-q * 10 ^ d + 1 / 2⌋ else ⌊q * 10 ^ d + 1 / 2⌋
  let a : ℕ := m.natAbs
  let sign : List Char := if m < 0 then ['-'] else []
  if d = 0 then String.mk (sign ++ (Nat.repr a).data)
  else String.mk (sign ++ (Nat.repr (a / 10 ^ d)).data ++ '.' :: natDigitsPadded d (a % 10 ^ d))

/-- The number of characters after the (last) decimal point of a rendered
number. -/
def fracLen (s : String) : ℕ :=
  ((s.data.reverse).takeWhile (fun c => c != '.')).length

/-- The displayed name: `feature.name || "(unnamed)"` (main.js line 71) —
JavaScript's `||` also replaces the empty string. -/
def displayName : Option String → String
  | none => "(unnamed)"
  | some s => if s = "" then "(unnamed)" else s

/-- One table row, in the cell order of main.js lines 72-81. -/
def renderRow (f : JFeature) : List String :=
  [displayName f.name,
   formatNumber f.lat 6,
   formatNumber f.lon 6,
   formatNumber f.orientation_deg 1,
   formatNumber f.deviation_deg 1,
   formatNumber f.signed_dev_deg 1,
   formatNumber f.aspect_ratio 2,
   f.confidence]

/-- The results table: either the single "No buildings found." placeholder
row or one row per feature. -/
inductive TableState where
  | placeholder
  | rows (r : List (List String))
deriving DecidableEq, Repr

/-- `updateTable` (main.js lines 57-84). -/
def updateTable (features : List JFeature) : TableState :=
  if features.isEmpty then .placeholder else .rows (features.map renderRow)

/-- One item added to the arrow layer: the rotated marker icon, or the
orientation polyline from the representative point to the arrow endpoint
(the polyline's target keeps the raw `JVal`s the guard inspected). -/
inductive ArrowEntry where
  | marker (lat lon angle : ℚ)
  | line (fromLat fromLon : ℚ) (toLat toLon : JVal)
deriving DecidableEq, Repr

/-- The arrow-layer content `updateMap` builds (main.js lines 91-117): per
feature a marker at (lat, lon), then the polyline only when both arrow
coordinates are finite. -/
def arrowEntriesOf (features : List JFeature) : List ArrowEntry :=
  features.foldr
    (fun f rest =>
      ArrowEntry.marker f.lat f.lon f.orientation_deg ::
        ((if f.arrow_lat.isFinite && f.arrow_lon.isFinite then
            [ArrowEntry.line f.lat f.lon f.arrow_lat f.arrow_lon]
          else []) ++ rest))
    []

/-- The markers among arrow-layer entries, in order. -/
def markersOf (l : List ArrowEntry) : List (ℚ × ℚ × ℚ) :=
  l.filterMap (fun e =>
    match e with
    | .marker a b c => some (a, b, c)
    | _ => none)

/-- The polylines among arrow-layer entries, in order: (source, target). -/
def linesOf (l : List ArrowEntry) : List ((ℚ × ℚ) × (JVal × JVal)) :=
  l.filterMap (fun e =>
    match e with
    | .line a b c d => some ((a, b), (c, d))
    | _ => none)

/-- The client's visible state: the `hasResults` flag, the two map layers,
the table and the status line. -/
structure UIState where
  hasResults : Bool
  polygons : List Unit
  arrows : List ArrowEntry
  table : TableState
  statusMsg : String
  statusType : String
deriving DecidableEq, Repr

/-- `clearLayers` (main.js lines 52-55). -/
def clearLayers (st : UIState) : UIState := { st with polygons := [], arrows := [] }

/-- `setStatus` (main.js lines 29-37). -/
def setStatus (st : UIState) (msg ty : String) : UIState :=
  { st with statusMsg := msg, statusType := ty }

/-- `updateMap` (main.js lines 86-118): clear both layers, add the polygon
GeoJSON when it has features, and rebuild the arrow layer. -/
def updateMap (st : UIState) (geojson : Option (List Unit))
    (features : List JFeature) : UIState :=
  let st1 := clearLayers st
  { st1 with
    polygons := match geojson with
      | some l => if l.isEmpty then [] else l
      | none => [],
    arrows := arrowEntriesOf features }

/-- The initial state (main.js lines 9-27, 236). -/
def initialState : UIState :=
  { hasResults := false, polygons := [], arrows := [], table := .placeholder,
    statusMsg := "Search for a city or use the current map view to begin.",
    statusType := "info" }

/-- An outward-visible action of the client. -/
inductive Effect where
  | fetchReq (method url : String) (body : Option Json)
  | alert (msg : String)
  | download (filename : String)

/-- The outcome of an awaited `fetch`: a parsed OK response (`data.geojson`
and `data.features`, either possibly absent), a non-ok HTTP status, or a
thrown network error. -/
inductive FetchOutcome where
  | success (geojson : Option (List Unit)) (features : Option (List JFeature))
  | httpError (status : ℕ) (body : String)
  | networkError

/-- A bounding box as sent to the server (glossary "Bbox"). -/
structure Bbox where
  north : ℚ
  south : ℚ
  east : ℚ
  west : ℚ
deriving DecidableEq, Repr

/-- The map viewport bounds, as Leaflet's `map.getBounds()` exposes them. -/
structure MapBounds where
  north : ℚ
  south : ℚ
  east : ℚ
  west : ℚ
deriving DecidableEq, Repr

/-- `getCurrentBbox` (main.js lines 156-164): the four sides of the current
map bounds. -/
def getCurrentBbox (m : MapBounds) : Bbox :=
  { north := m.north, south := m.south, east := m.east, west := m.west }

/-- The serialized bbox object: exactly the four fields north, south,
east, west. -/
def bboxJson (b : Bbox) : Json :=
  Json.obj [("north", Json.num b.north), ("south", Json.num b.south),
    ("east", Json.num b.east), ("west", Json.num b.west)]

/-- `JSON.stringify({ bbox })` (main.js line 128). -/
def orientationRequestBody (b : Bbox) : Json := Json.obj [("bbox", bboxJson b)]

/-- `requestOrientation` (main.js lines 120-154): reset `hasResults`, POST
the bbox to `/api/orientation`, then either render the response or, on a
non-ok status or a thrown error, clear both layers, reset the table to the
placeholder and alert. -/
def requestOrientation (st : UIState) (bbox : Bbox) (oc : FetchOutcome) :
    UIState × List Effect :=
  let st0 := setStatus { st with hasResults := false }
    "Fetching building orientations…" "loading"
  let fe := Effect.fetchReq "POST" "/api/orientation" (some (orientationRequestBody bbox))
  match oc with
  | .success geojson rawFeatures =>
      let features := rawFeatures.getD []
      let st1 := updateMap st0 geojson features
      let st2 := { st1 with table := updateTable features,
                            hasResults := !features.isEmpty }
      if features.isEmpty then
        (setStatus st2 "No churches or cathedrals found in this area." "info", [fe])
      else
        (setStatus st2 (toString features.length ++ " building(s) found.") "success", [fe])
  | .httpError _ _ | .networkError =>
      let st1 := clearLayers st0
      (setStatus { st1 with table := updateTable [] }
         "Failed to fetch orientation data." "error",
       [fe, Effect.alert "Unable to fetch building data. Please try again later."])

/-- `exportData` (main.js lines 202-231): refuse with an alert when no
search has produced results; otherwise GET the export endpoint and either
trigger the download or alert on failure. -/
def exportData (st : UIState) (endpoint : String) (oc : FetchOutcome) :
    UIState × List Effect :=
  if !st.hasResults then
    (st, [Effect.alert "Run a search before exporting."])
  else
    match oc with
    | .success _ _ =>
        (setStatus st "Export ready." "success",
         [Effect.fetchReq "GET" endpoint none,
          Effect.download (if endpoint.endsWith "csv" then "church_orientation.csv"
            else "church_orientation.geojson")])
    | .httpError _ _ | .networkError =>
        (setStatus st "Export failed." "error",
         [Effect.fetchReq "GET" endpoint none,
          Effect.alert "Export failed. Please run a search and try again."])

end MainJs

namespace ChurchOrient

/-! Concrete inputs used by witnesses and counterexamples: a projection
with `cosR ≡ 1` and `rScale = 1`, an angle function that is faithful at
the directions it is applied to (a vertical direction has plane angle
90°), and small axis-aligned rectangles whose long side runs north-south
(the configuration of spec §8 Scenario 1). -/

/-- Witness `cosR`: the constant 1. -/
def cosRW : ℚ → ℚ := fun _ => 1

/-- Witness `angleOf`: 90° for vertical directions, 0° otherwise —
the true plane angle of every direction the witness pipeline runs on. -/
def angleOfW : Pt → ℚ := fun d => if d.1 = 0 then 90 else 0

/-- A closed axis-aligned ring whose long side runs north-south
(latitude span 4, longitude span 1). -/
def ringW : List GeoPt := [(0, 0), (4, 0), (4, 1), (0, 1), (0, 0)]

/-- A one-polygon batch around `ringW`. -/
def batchW : List RawElement := [⟨1, some "church", ringW⟩]

/-- The record the pipeline emits for `ringW`. -/
def recW : FeatureRecord := buildRecord cosRW 1 angleOfW 1 (some "church") ringW.toFinset

/-- A second closed north-south ring (latitude span 3, longitude span 1). -/
def ringW2 : List GeoPt := [(0, 0), (3, 0), (3, 1), (0, 1), (0, 0)]

/-- A one-polygon batch around `ringW2`. -/
def batchW2 : List RawElement := [⟨2, none, ringW2⟩]

/-- The record the pipeline emits for `ringW2`. -/
def recW2 : FeatureRecord := buildRecord cosRW 1 angleOfW 2 none ringW2.toFinset

end ChurchOrient

namespace MainJs

/-- A concrete feature for the client-side witnesses. -/
def featureW : JFeature :=
  ⟨some "Duomo", 1 / 2, 1 / 3, 10, 80, -10, 3 / 2, "high", JVal.fin 1, JVal.fin 2⟩

/-- A concrete bbox for the client-side witnesses. -/
def bboxW : Bbox := ⟨1, 2, 3, 4⟩

end MainJs

namespace ChurchOrient

/-! Support lemmas about the fitter. -/

/-- The running (min, max) fold keeps its first component at most its
second. -/
theorem foldl_minmax_le (f : Pt → ℚ) (rest : List Pt) :
    ∀ mm : ℚ × ℚ, mm.1 ≤ mm.2 →
      (rest.foldl (fun mm q => (min mm.1 (f q), max mm.2 (f q))) mm).1
        ≤ (rest.foldl (fun mm q => (min mm.1 (f q), max mm.2 (f q))) mm).2 := by
  induction rest with
  | nil => intro mm h; simpa using h
  | cons q t ih =>
    intro mm h
    simp only [List.foldl_cons]
    exact ih _ (le_trans (le_trans (min_le_left _ _) h) (le_max_left _ _))

/-- The projection range is ordered. -/
theorem projRange_le (f : Pt → ℚ) (l : List Pt) :
    (projRange f l).1 ≤ (projRange f l).2 := by
  cases l with
  | nil => simp [projRange]
  | cons p rest => exact foldl_minmax_le f rest (f p, f p) (le_refl _)

/-- Every extent is nonnegative. -/
theorem extent_nonneg (f : Pt → ℚ) (l : List Pt) : 0 ≤ extent f l :=
  sub_nonneg.mpr (projRange_le f l)

/-- Normalizing a direction keeps its squared norm. -/
theorem sqNorm_normDir (d : Pt) : sqNorm (normDir d) = sqNorm d := by
  unfold normDir
  split
  · simp [sqNorm]
  · rfl

/-- The perpendicular keeps the squared norm. -/
theorem sqNorm_perp (d : Pt) : sqNorm (perp d) = sqNorm d := by
  simp [sqNorm, perp, add_comm]

/-- A nonzero vector has positive squared norm. -/
theorem sqNorm_pos (d : Pt) (h : d ≠ 0) : 0 < sqNorm d := by
  have h1 : d.1 ≠ 0 ∨ d.2 ≠ 0 := by
    by_contra hc
    push_neg at hc
    exact h (Prod.ext_iff.mpr ⟨hc.1, hc.2⟩)
  have s1 := sq_nonneg d.1
  have s2 := sq_nonneg d.2
  unfold sqNorm
  rcases h1 with h1 | h1
  · have : 0 < d.1 ^ 2 := lt_of_le_of_ne s1 (Ne.symm (pow_ne_zero 2 h1))
    linarith
  · have : 0 < d.2 ^ 2 := lt_of_le_of_ne s2 (Ne.symm (pow_ne_zero 2 h1))
    linarith

/-- Normalizing keeps a direction nonzero. -/
theorem normDir_ne_zero (d : Pt) (h : d ≠ 0) : normDir d ≠ 0 := by
  unfold normDir
  split
  · intro hc
    apply h
    simp only [Prod.ext_iff, Prod.fst_zero, Prod.snd_zero, neg_eq_zero] at hc ⊢
    exact hc
  · exact h

/-- Every candidate has a direction of positive squared norm and
nonnegative extents. -/
theorem rectCandidates_props (vs : Finset Pt) (c : RectCand)
    (hc : c ∈ rectCandidates vs) :
    0 < sqNorm c.dir ∧ 0 ≤ c.eAlong ∧ 0 ≤ c.ePerp := by
  unfold rectCandidates at hc
  rw [List.mem_filterMap] at hc
  obtain ⟨e, -, he⟩ := hc
  unfold candOf at he
  split at he
  · simp at he
  · next hne =>
    rw [Option.some.injEq] at he
    subst he
    refine ⟨?_, extent_nonneg _ _, extent_nonneg _ _⟩
    rw [sqNorm_normDir]
    exact sqNorm_pos _ (sub_ne_zero.mpr (Ne.symm hne))

/-- The kept candidate's key is at most the first argument's. -/
theorem candKey_pickCand_left (a b : RectCand) :
    candKey (pickCand a b) ≤ candKey a := by
  unfold pickCand
  split
  · next h => exact le_of_lt h
  · exact le_refl _

/-- The kept candidate's key is at most the second argument's. -/
theorem candKey_pickCand_right (a b : RectCand) :
    candKey (pickCand a b) ≤ candKey b := by
  unfold pickCand
  split
  · exact le_refl _
  · next h => exact le_of_not_lt h

/-- The selection fold never exceeds its initial key. -/
theorem foldl_pickCand_le_init (l : List RectCand) :
    ∀ a, candKey (l.foldl pickCand a) ≤ candKey a := by
  induction l with
  | nil => intro a; exact le_refl _
  | cons b t ih =>
    intro a
    exact le_trans (ih (pickCand a b)) (candKey_pickCand_left a b)

/-- The selection fold never exceeds any scanned candidate's key. -/
theorem foldl_pickCand_le_mem (l : List RectCand) :
    ∀ a c, c ∈ l → candKey (l.foldl pickCand a) ≤ candKey c := by
  induction l with
  | nil => intro a c hc; cases hc
  | cons b t ih =>
    intro a c hc
    rcases List.mem_cons.mp hc with rfl | hc
    · exact le_trans (foldl_pickCand_le_init t (pickCand a c)) (candKey_pickCand_right a c)
    · exact ih _ c hc

/-- The selection fold returns its initial candidate or a scanned one. -/
theorem foldl_pickCand_mem (l : List RectCand) :
    ∀ a, l.foldl pickCand a ∈ a :: l := by
  induction l with
  | nil => intro a; simp
  | cons b t ih =>
    intro a
    simp only [List.foldl_cons]
    have hp : pickCand a b = a ∨ pickCand a b = b := by
      unfold pickCand
      split
      · exact Or.inr rfl
      · exact Or.inl rfl
    rcases List.mem_cons.mp (ih (pickCand a b)) with h | h
    · rcases hp with hh | hh
      · rw [h, hh]; exact List.mem_cons_self _ _
      · rw [h, hh]; exact List.mem_cons_of_mem _ (List.mem_cons_self _ _)
    · exact List.mem_cons_of_mem _ (List.mem_cons_of_mem _ h)

/-- The chosen candidate is among the candidates. -/
theorem chooseCand_mem {l : List RectCand} {c : RectCand}
    (h : chooseCand l = some c) : c ∈ l := by
  cases l with
  | nil => simp [chooseCand] at h
  | cons b t =>
    simp only [chooseCand, Option.some.injEq] at h
    rw [← h]
    exact foldl_pickCand_mem t b

/-- The chosen candidate minimizes the deterministic (area, angle) key. -/
theorem chooseCand_min {l : List RectCand} {c c' : RectCand}
    (h : chooseCand l = some c) (h' : c' ∈ l) : candKey c ≤ candKey c' := by
  cases l with
  | nil => cases h'
  | cons b t =>
    simp only [chooseCand, Option.some.injEq] at h
    rw [← h]
    rcases List.mem_cons.mp h' with rfl | hm
    · exact foldl_pickCand_le_init t c'
    · exact foldl_pickCand_le_mem t b c' hm

/-- The fitted rectangle has a nonnegative short side, a long side at
least the short one, and a direction of positive squared norm. -/
theorem fitRect_props (vs : Finset Pt) :
    0 ≤ (fitRect vs).short ∧ (fitRect vs).short ≤ (fitRect vs).long ∧
      0 < sqNorm (fitRect vs).dir := by
  rcases hE : chooseCand (rectCandidates vs) with - | c
  · simp only [fitRect, hE]
    refine ⟨le_refl 0, le_refl 0, ?_⟩
    norm_num [sqNorm]
  · obtain ⟨hn, ha, hp⟩ := rectCandidates_props vs c (chooseCand_mem hE)
    simp only [fitRect, hE, rectOfCand]
    split
    · next hlt =>
      exact ⟨ha, le_of_lt hlt, by rw [sqNorm_normDir, sqNorm_perp]; exact hn⟩
    · next hge => exact ⟨hp, le_of_not_lt hge, hn⟩

/-! Support lemmas about the analyzer. -/

/-- The bearing reduction is nonnegative. -/
theorem qmod180_nonneg (x : ℚ) : 0 ≤ qmod180 x := by
  unfold qmod180
  have := Int.fract_nonneg (x / 180)
  linarith

/-- The bearing reduction is below 180. -/
theorem qmod180_lt (x : ℚ) : qmod180 x < 180 := by
  unfold qmod180
  have := Int.fract_lt_one (x / 180)
  linarith

/-- The deviation is nonnegative. -/
theorem deviationDeg_nonneg (o : ℚ) : 0 ≤ deviationDeg o :=
  le_min (abs_nonneg _) (abs_nonneg _)

/-- For a bearing in [0, 180), the deviation is at most 90. -/
theorem deviationDeg_le (o : ℚ) (h0 : 0 ≤ o) (h1 : o < 180) :
    deviationDeg o ≤ 90 := by
  unfold deviationDeg
  have : |o - 90| ≤ 90 := abs_le.mpr ⟨by linarith, by linarith⟩
  exact le_trans (min_le_left _ _) this

/-- The signed deviation always lands in (−90, 90]. -/
theorem signedDevDeg_bounds (o : ℚ) :
    -90 < signedDevDeg o ∧ signedDevDeg o ≤ 90 := by
  unfold signedDevDeg
  have h1 : ((o - 90 - 90) / 180 : ℚ) ≤ (⌈(o - 90 - 90) / 180⌉ : ℚ) := Int.le_ceil _
  have h2 : ((⌈(o - 90 - 90) / 180⌉ : ℚ)) < (o - 90 - 90) / 180 + 1 :=
    Int.ceil_lt_add_one _
  constructor
  · linarith
  · linarith

/-- The guarded aspect ratio is at least 1 whenever the short side is
nonnegative, at most the long side, and the direction is nonzero. -/
theorem aspectRatioOf_ge_one (long short n2 : ℚ) (h0 : 0 ≤ short)
    (h1 : short ≤ long) (h2 : 0 < n2) : 1 ≤ aspectRatioOf long short n2 := by
  unfold aspectRatioOf
  split
  · norm_num [aspectSentinel]
  · next hge =>
    push_neg at hge
    have heps : (0 : ℚ) < epsHeight ^ 2 * n2 := by
      have he : (0 : ℚ) < epsHeight := by norm_num [epsHeight]
      positivity
    have hs2 : 0 < short ^ 2 := lt_of_lt_of_le heps hge
    have hs : 0 < short := by
      rcases lt_or_eq_of_le h0 with h | h
      · exact h
      · rw [← h] at hs2
        simp at hs2
    rw [one_le_div hs]
    exact h1

/-- Every emitted record is the analyzer's output on some non-degenerate
batch element. -/
theorem mem_records {cosR : ℚ → ℚ} {rScale : ℚ} {angleOf : Pt → ℚ}
    {batch : List RawElement} {r : FeatureRecord}
    (h : r ∈ (runPipeline cosR rScale angleOf batch).records) :
    ∃ e, e ∈ batch ∧ degenerate e = false ∧
      r = buildRecord cosR rScale angleOf e.id e.name e.ring.toFinset := by
  simp only [runPipeline, List.mem_filterMap] at h
  obtain ⟨e, he, hp⟩ := h
  unfold processElement at hp
  split at hp
  · simp at hp
  · next hd =>
    exact ⟨e, he, by simpa using hd, (Option.some.inj hp).symm⟩

/-- C1: every emitted record's deviation_deg is exactly
min(|orientation_deg − 90|, |orientation_deg − 270|); the value lies in
[0, 90] — not in [0, 45] as claimed: for the axis-aligned north-south
rectangle the formula yields 90 (see the counterexample). -/
theorem c1_deviation_formula_and_range (cosR : ℚ → ℚ) (rScale : ℚ)
    (angleOf : Pt → ℚ) (batch : List RawElement) (r : FeatureRecord)
    (h : r ∈ (runPipeline cosR rScale angleOf batch).records) :
    r.deviation_deg = min |r.orientation_deg - 90| |r.orientation_deg - 270| ∧
    0 ≤ r.deviation_deg ∧ r.deviation_deg ≤ 90 := by
  obtain ⟨e, -, -, rfl⟩ := mem_records h
  simp only [buildRecord]
  exact ⟨rfl, deviationDeg_nonneg _,
    deviationDeg_le _ (qmod180_nonneg _) (qmod180_lt _)⟩

/-- C1 counterexample: for the one-polygon batch around the axis-aligned
rectangle with its long side north-south (spec §8 Scenario 1), the
emitted deviation_deg is 90, so it does not lie in [0, 45]. -/
theorem c1_counterexample :
    ¬ (∀ r ∈ (runPipeline cosRW 1 angleOfW batchW).records,
        r.deviation_deg ≤ 45) := by
  with_unfolding_all decide

/-- C1 witness: the theorem applied to the concrete Scenario-1 record. -/
theorem c1_witness :
    recW ∈ (runPipeline cosRW 1 angleOfW batchW).records ∧
    (recW.deviation_deg = min |recW.orientation_deg - 90| |recW.orientation_deg - 270| ∧
     0 ≤ recW.deviation_deg ∧ recW.deviation_deg ≤ 90) :=
  ⟨by with_unfolding_all decide,
   c1_deviation_formula_and_range cosRW 1 angleOfW batchW recW
     (by with_unfolding_all decide)⟩

/-- C2 (amended): every emitted record satisfies orientation_deg ∈ [0,360),
deviation_deg ∈ [0,90] (the claimed [0,45] fails, see the counterexample),
signed_dev_deg ∈ (−90,90] and aspect_ratio ≥ 1. -/
theorem c2_record_range_invariants (cosR : ℚ → ℚ) (rScale : ℚ)
    (angleOf : Pt → ℚ) (batch : List RawElement) (r : FeatureRecord)
    (h : r ∈ (runPipeline cosR rScale angleOf batch).records) :
    (0 ≤ r.orientation_deg ∧ r.orientation_deg < 360) ∧
    (0 ≤ r.deviation_deg ∧ r.deviation_deg ≤ 90) ∧
    (-90 < r.signed_dev_deg ∧ r.signed_dev_deg ≤ 90) ∧
    1 ≤ r.aspect_ratio := by
  obtain ⟨e, -, -, rfl⟩ := mem_records h
  simp only [buildRecord]
  obtain ⟨h0, h1, h2⟩ := fitRect_props (projectedVerts cosR rScale e.ring.toFinset)
  exact ⟨⟨qmod180_nonneg _, lt_trans (qmod180_lt _) (by norm_num)⟩,
    ⟨deviationDeg_nonneg _, deviationDeg_le _ (qmod180_nonneg _) (qmod180_lt _)⟩,
    signedDevDeg_bounds _,
    aspectRatioOf_ge_one _ _ _ h0 h1 h2⟩

/-- C2 counterexample: a batch whose emitted record has deviation_deg = 90,
falsifying the claimed invariant deviation_deg ∈ [0, 45] (the other three
range invariants do hold for it). -/
theorem c2_counterexample :
    ¬ (∀ r ∈ (runPipeline cosRW 1 angleOfW batchW2).records,
        (0 ≤ r.orientation_deg ∧ r.orientation_deg < 360) ∧
        (0 ≤ r.deviation_deg ∧ r.deviation_deg ≤ 45) ∧
        (-90 < r.signed_dev_deg ∧ r.signed_dev_deg ≤ 90) ∧
        1 ≤ r.aspect_ratio) := by
  with_unfolding_all decide

/-- C2 witness: the theorem applied to the concrete record of `batchW2`. -/
theorem c2_witness :
    recW2 ∈ (runPipeline cosRW 1 angleOfW batchW2).records ∧
    ((0 ≤ recW2.orientation_deg ∧ recW2.orientation_deg < 360) ∧
     (0 ≤ recW2.deviation_deg ∧ recW2.deviation_deg ≤ 90) ∧
     (-90 < recW2.signed_dev_deg ∧ recW2.signed_dev_deg ≤ 90) ∧
     1 ≤ recW2.aspect_ratio) :=
  ⟨by with_unfolding_all decide,
   c2_record_range_invariants cosRW 1 angleOfW batchW2 recW2
     (by with_unfolding_all decide)⟩

/-- C3: for a ring with at least 3 distinct vertices, reversing the
winding direction or rotating the starting vertex changes neither the
fitted rectangle nor the emitted record (hence neither orientation_deg,
deviation_deg nor aspect_ratio) — exactly, not merely within tolerance,
since the embedding is over ℚ. -/
theorem c3_ring_invariance (cosR : ℚ → ℚ) (rScale : ℚ) (angleOf : Pt → ℚ)
    (e : RawElement) (n : ℕ) (_h : 3 ≤ e.ring.toFinset.card) :
    ringRect cosR rScale e.ring.reverse = ringRect cosR rScale e.ring ∧
    ringRect cosR rScale (e.ring.rotate n) = ringRect cosR rScale e.ring ∧
    processElement cosR rScale angleOf { e with ring := e.ring.reverse }
      = processElement cosR rScale angleOf e ∧
    processElement cosR rScale angleOf { e with ring := e.ring.rotate n }
      = processElement cosR rScale angleOf e := by
  have hrev : e.ring.reverse.toFinset = e.ring.toFinset := List.toFinset_reverse
  have hrot : (e.ring.rotate n).toFinset = e.ring.toFinset :=
    List.toFinset_eq_of_perm _ _ (List.rotate_perm e.ring n)
  refine ⟨?_, ?_, ?_, ?_⟩
  · unfold ringRect
    rw [hrev]
  · unfold ringRect
    rw [hrot]
  · simp only [processElement, degenerate, buildRecord]
    rw [hrev]
  · simp only [processElement, degenerate, buildRecord]
    rw [hrot]

/-- C3 witness: the theorem at the concrete ring `ringW`, rotated by 1. -/
theorem c3_witness :
    3 ≤ (RawElement.mk 1 (some "church") ringW).ring.toFinset.card ∧
    (ringRect cosRW 1 (RawElement.mk 1 (some "church") ringW).ring.reverse
       = ringRect cosRW 1 (RawElement.mk 1 (some "church") ringW).ring ∧
     ringRect cosRW 1 ((RawElement.mk 1 (some "church") ringW).ring.rotate 1)
       = ringRect cosRW 1 (RawElement.mk 1 (some "church") ringW).ring ∧
     processElement cosRW 1 angleOfW
         { RawElement.mk 1 (some "church") ringW with
            ring := (RawElement.mk 1 (some "church") ringW).ring.reverse }
       = processElement cosRW 1 angleOfW (RawElement.mk 1 (some "church") ringW) ∧
     processElement cosRW 1 angleOfW
         { RawElement.mk 1 (some "church") ringW with
            ring := (RawElement.mk 1 (some "church") ringW).ring.rotate 1 }
       = processElement cosRW 1 angleOfW (RawElement.mk 1 (some "church") ringW)) :=
  ⟨by with_unfolding_all decide,
   c3_ring_invariance cosRW 1 angleOfW (RawElement.mk 1 (some "church") ringW) 1
     (by with_unfolding_all decide)⟩

/-- C4: the pipeline is a pure function, so two runs on identical input
are identical; and the minimum-area selection is a deterministic rule:
the chosen candidate minimizes the fixed lexicographic (area, rotation
angle) key among all hull-edge candidates. -/
theorem c4_pipeline_determinism (cosR : ℚ → ℚ) (rScale : ℚ)
    (angleOf : Pt → ℚ) (batch : List RawElement) :
    runPipeline cosR rScale angleOf batch = runPipeline cosR rScale angleOf batch ∧
    ∀ (vs : Finset Pt) (c c' : RectCand), chooseCand (rectCandidates vs) = some c →
      c' ∈ rectCandidates vs → candKey c ≤ candKey c' :=
  ⟨rfl, fun _ _ _ hc hm => chooseCand_min hc hm⟩

/-- The record stream is exactly the analyzer mapped over the
non-degenerate elements, in order. -/
theorem filterMap_processElement (cosR : ℚ → ℚ) (rScale : ℚ)
    (angleOf : Pt → ℚ) (batch : List RawElement) :
    batch.filterMap (processElement cosR rScale angleOf)
      = (batch.filter (fun e => !degenerate e)).map
          (fun e => buildRecord cosR rScale angleOf e.id e.name e.ring.toFinset) := by
  induction batch with
  | nil => rfl
  | cons e t ih =>
    by_cases hd : degenerate e
    · simp [List.filterMap_cons, List.filter_cons, processElement, hd, ih]
    · simp [List.filterMap_cons, List.filter_cons, processElement, hd, ih]

/-- Filtering a predicate and its negation splits a list's length. -/
theorem filter_length_split {α : Type} (p : α → Bool) (l : List α) :
    (l.filter (fun a => !p a)).length + (l.filter p).length = l.length := by
  induction l with
  | nil => rfl
  | cons a t ih =>
    by_cases h : p a
    · simp only [List.filter_cons, h, Bool.not_true, List.length_cons, ← ih]
      simp
      omega
    · simp only [List.filter_cons, h, Bool.not_false, List.length_cons, ← ih]
      simp [h]
      omega

/-- C5: degenerate polygons (fewer than 3 distinct vertices) are skipped
and each counted once in discarded_count, every non-degenerate polygon
yields exactly one record in input order, and the batch never aborts:
records plus discards always account for the whole batch. -/
theorem c5_degenerate_skipped (cosR : ℚ → ℚ) (rScale : ℚ)
    (angleOf : Pt → ℚ) (batch : List RawElement) :
    (runPipeline cosR rScale angleOf batch).records
      = (batch.filter (fun e => !degenerate e)).map
          (fun e => buildRecord cosR rScale angleOf e.id e.name e.ring.toFinset) ∧
    (runPipeline cosR rScale angleOf batch).discarded_count
      = (batch.filter (fun e => degenerate e)).length ∧
    (runPipeline cosR rScale angleOf batch).records.length
        + (runPipeline cosR rScale angleOf batch).discarded_count
      = batch.length := by
  refine ⟨filterMap_processElement cosR rScale angleOf batch, ?_, ?_⟩
  · simp only [runPipeline]
    exact List.countP_eq_length_filter _ _
  · simp only [runPipeline, filterMap_processElement, List.length_map,
      List.countP_eq_length_filter]
    exact filter_length_split (fun e => degenerate e) batch

end ChurchOrient

namespace MainJs

/-! Support lemmas about the client model. -/

/-- The padded digit list has exactly the requested length. -/
theorem natDigitsPadded_length : ∀ (d n : ℕ), (natDigitsPadded d n).length = d
  | 0, _ => rfl
  | d + 1, n => by simp [natDigitsPadded, natDigitsPadded_length d]

/-- A digit character is never the decimal point. -/
theorem digitToChar_ne_dot (k : ℕ) : (digitToChar k != '.') = true := by
  have hk : k % 10 < 10 := Nat.mod_lt _ (by norm_num)
  have aux : ∀ m, m < 10 → (Char.ofNat (48 + m) != '.') = true := by decide
  exact aux _ hk

/-- No character of the padded digit list is the decimal point. -/
theorem mem_natDigitsPadded_ne_dot :
    ∀ (d n : ℕ), ∀ c ∈ natDigitsPadded d n, (c != '.') = true
  | 0, _ => by intro c hc; cases hc
  | d + 1, n => by
    intro c hc
    rcases List.mem_cons.mp hc with rfl | hc
    · exact digitToChar_ne_dot _
    · exact mem_natDigitsPadded_ne_dot d _ c hc

/-- `takeWhile` of "not the decimal point" stops exactly at the point. -/
theorem takeWhile_append_dot (l r : List Char)
    (hl : ∀ c ∈ l, (c != '.') = true) :
    (l ++ '.' :: r).takeWhile (fun c => c != '.') = l := by
  induction l with
  | nil => simp [List.takeWhile_cons]
  | cons a t ih =>
    have ha := hl a (List.mem_cons_self _ _)
    simp only [List.cons_append, List.takeWhile_cons, ha, if_true]
    rw [ih (fun c hc => hl c (List.mem_cons_of_mem _ hc))]

/-- The characters after the decimal point of a sign-integer-point-digits
rendering are exactly the digit characters. -/
theorem fracLen_mk (sign ip frac : List Char)
    (hfrac : ∀ c ∈ frac, (c != '.') = true) :
    fracLen (String.mk (sign ++ ip ++ '.' :: frac)) = frac.length := by
  unfold fracLen
  simp only [List.reverse_append, List.reverse_cons, List.append_assoc,
    List.singleton_append, List.cons_append]
  rw [takeWhile_append_dot _ _ (fun c hc => hfrac c (List.mem_reverse.mp hc))]
  exact List.length_reverse _

/-- `formatNumber` renders exactly `d` characters after the decimal point
whenever `d` is positive. -/
theorem fracLen_formatNumber (q : ℚ) (d : ℕ) (hd : 0 < d) :
    fracLen (formatNumber q d) = d := by
  simp only [formatNumber, if_neg hd.ne']
  rw [fracLen_mk _ _ _ (fun c hc => mem_natDigitsPadded_ne_dot d _ c hc)]
  exact natDigitsPadded_length d _

/-- C6: an export requested while `hasResults` is false only alerts and
leaves the state unchanged — no fetch, no download. -/
theorem c6_export_no_results_guard (st : UIState) (endpoint : String)
    (oc : FetchOutcome) (h : st.hasResults = false) :
    exportData st endpoint oc = (st, [Effect.alert "Run a search before exporting."]) := by
  simp [exportData, h]

/-- C6 witness: the guard at the initial state. -/
theorem c6_witness :
    exportData initialState "/api/export.csv" FetchOutcome.networkError
      = (initialState, [Effect.alert "Run a search before exporting."]) :=
  c6_export_no_results_guard initialState "/api/export.csv" FetchOutcome.networkError rfl

/-- C7: a non-empty feature list is rendered one row per feature with the
cells in the fixed order name, lat, lon, orientation_deg, deviation_deg,
signed_dev_deg, aspect_ratio, confidence, lat and lon to 6 decimal
places, the three angles to 1, and aspect_ratio to 2. -/
theorem c7_table_rendering (features : List JFeature) (h : features ≠ []) :
    updateTable features = TableState.rows (features.map renderRow) ∧
    (∀ f ∈ features,
      renderRow f = [displayName f.name, formatNumber f.lat 6, formatNumber f.lon 6,
        formatNumber f.orientation_deg 1, formatNumber f.deviation_deg 1,
        formatNumber f.signed_dev_deg 1, formatNumber f.aspect_ratio 2,
        f.confidence]) ∧
    (∀ f ∈ features,
      fracLen (formatNumber f.lat 6) = 6 ∧ fracLen (formatNumber f.lon 6) = 6 ∧
      fracLen (formatNumber f.orientation_deg 1) = 1 ∧
      fracLen (formatNumber f.deviation_deg 1) = 1 ∧
      fracLen (formatNumber f.signed_dev_deg 1) = 1 ∧
      fracLen (formatNumber f.aspect_ratio 2) = 2) := by
  have hne : features.isEmpty = false := by
    cases features
    · exact absurd rfl h
    · rfl
  refine ⟨by simp [updateTable, hne], fun f _ => rfl, fun f _ => ?_⟩
  exact ⟨fracLen_formatNumber _ 6 (by norm_num), fracLen_formatNumber _ 6 (by norm_num),
    fracLen_formatNumber _ 1 (by norm_num), fracLen_formatNumber _ 1 (by norm_num),
    fracLen_formatNumber _ 1 (by norm_num), fracLen_formatNumber _ 2 (by norm_num)⟩

/-- C7 witness: the theorem at a concrete one-feature list. -/
theorem c7_witness : fracLen (formatNumber featureW.lat 6) = 6 :=
  ((c7_table_rendering [featureW] (by simp)).2.2 featureW (by simp)).1

/-- C8: a query built from the current map view always POSTs to
/api/orientation a JSON body whose bbox object holds exactly the four
fields north, south, east, west taken from the map bounds. -/
theorem c8_bbox_query (m : MapBounds) (st : UIState) (oc : FetchOutcome) :
    (requestOrientation st (getCurrentBbox m) oc).2.head? =
      some (Effect.fetchReq "POST" "/api/orientation" (some (Json.obj
        [("bbox", Json.obj [("north", Json.num m.north), ("south", Json.num m.south),
          ("east", Json.num m.east), ("west", Json.num m.west)])]))) := by
  cases oc with
  | success geojson rawFeatures =>
    simp only [requestOrientation, orientationRequestBody, bboxJson, getCurrentBbox]
    split <;> rfl
  | httpError s b => rfl
  | networkError => rfl

/-- C9: when the orientation fetch fails (non-ok status or thrown error),
both layers are cleared, the table shows the placeholder, `hasResults`
stays false, and any subsequent export is blocked by the guard. -/
theorem c9_fetch_failure_empty_state (st : UIState) (bbox : Bbox)
    (oc : FetchOutcome)
    (h : (∃ s b, oc = FetchOutcome.httpError s b) ∨ oc = FetchOutcome.networkError) :
    (requestOrientation st bbox oc).1.polygons = [] ∧
    (requestOrientation st bbox oc).1.arrows = [] ∧
    (requestOrientation st bbox oc).1.table = TableState.placeholder ∧
    (requestOrientation st bbox oc).1.hasResults = false ∧
    (∀ ep oc2, exportData (requestOrientation st bbox oc).1 ep oc2
        = ((requestOrientation st bbox oc).1,
           [Effect.alert "Run a search before exporting."])) := by
  have guard : ∀ (st' : UIState), st'.hasResults = false → ∀ ep oc2,
      exportData st' ep oc2 = (st', [Effect.alert "Run a search before exporting."]) :=
    fun st' h' ep oc2 => by simp [exportData, h']
  rcases h with ⟨s, b, rfl⟩ | rfl
  · exact ⟨rfl, rfl, rfl, rfl, fun ep oc2 => guard _ rfl ep oc2⟩
  · exact ⟨rfl, rfl, rfl, rfl, fun ep oc2 => guard _ rfl ep oc2⟩

/-- C9 witness: a failed fetch from the initial state leaves
`hasResults` false. -/
theorem c9_witness :
    (requestOrientation initialState bboxW FetchOutcome.networkError).1.hasResults = false :=
  (c9_fetch_failure_empty_state initialState bboxW FetchOutcome.networkError
    (Or.inr rfl)).2.2.2.1

/-- The arrow layer's markers are one per feature, at (lat, lon). -/
theorem markersOf_arrowEntriesOf (fs : List JFeature) :
    markersOf (arrowEntriesOf fs)
      = fs.map (fun f => (f.lat, f.lon, f.orientation_deg)) := by
  induction fs with
  | nil => rfl
  | cons f t ih =>
    simp only [arrowEntriesOf, List.foldr_cons] at ih ⊢
    by_cases hf : (f.arrow_lat.isFinite && f.arrow_lon.isFinite) = true
    · simp [markersOf, List.filterMap_cons, List.filterMap_append, hf] at ih ⊢
      exact ih
    · simp [markersOf, List.filterMap_cons, List.filterMap_append, hf] at ih ⊢
      exact ih

/-- The arrow layer's polylines are exactly those of the features whose
arrow coordinates are both finite. -/
theorem linesOf_arrowEntriesOf (fs : List JFeature) :
    linesOf (arrowEntriesOf fs)
      = (fs.filter (fun f => f.arrow_lat.isFinite && f.arrow_lon.isFinite)).map
          (fun f => ((f.lat, f.lon), (f.arrow_lat, f.arrow_lon))) := by
  induction fs with
  | nil => rfl
  | cons f t ih =>
    simp only [arrowEntriesOf, List.foldr_cons] at ih ⊢
    by_cases hf : (f.arrow_lat.isFinite && f.arrow_lon.isFinite) = true
    · simp [linesOf, List.filterMap_cons, List.filterMap_append, List.filter_cons, hf] at ih ⊢
      exact ih
    · simp [linesOf, List.filterMap_cons, List.filterMap_append, List.filter_cons, hf] at ih ⊢
      exact ih

/-- C10: `updateMap` adds a marker for every feature, adds the arrow
polyline only when both arrow coordinates are finite, and consequently
every polyline on the layer has finite endpoints — a non-finite arrow
coordinate never reaches the polyline constructor. -/
theorem c10_arrow_guard (st : UIState) (geojson : Option (List Unit))
    (features : List JFeature) :
    markersOf (updateMap st geojson features).arrows
      = features.map (fun f => (f.lat, f.lon, f.orientation_deg)) ∧
    linesOf (updateMap st geojson features).arrows
      = (features.filter (fun f => f.arrow_lat.isFinite && f.arrow_lon.isFinite)).map
          (fun f => ((f.lat, f.lon), (f.arrow_lat, f.arrow_lon))) ∧
    ∀ pr ∈ linesOf (updateMap st geojson features).arrows,
      pr.2.1.isFinite = true ∧ pr.2.2.isFinite = true := by
  have harr : (updateMap st geojson features).arrows = arrowEntriesOf features := rfl
  refine ⟨by rw [harr]; exact markersOf_arrowEntriesOf features,
    by rw [harr]; exact linesOf_arrowEntriesOf features, ?_⟩
  intro pr hpr
  rw [harr, linesOf_arrowEntriesOf] at hpr
  rw [List.mem_map] at hpr
  obtain ⟨f, hf, rfl⟩ := hpr
  have hc := (List.mem_filter.mp hf).2
  rw [Bool.and_eq_true] at hc
  exact ⟨hc.1, hc.2⟩

end MainJs
